import Mathlib

/-!
BinaryProtocol: packet framing and tagged payload codec.

A shallow embedding of `include/BinaryProtocol.hpp` and `src/BinaryProtocol.cpp`.

Conventions of the embedding:

* a byte (`uint8_t`, `char`) is a `Nat`; every place where the source narrows a
  wider integer to a byte (`static_cast<uint8_t>`) is written `% 256`;
* `std::string` and `std::vector<uint8_t>` are `List Nat` (lists of bytes);
* `uint32_t` is a `Nat`, assumed `< 2 ^ 32` where a theorem needs it;
* `std::memcpy` of the packed 12-byte `PacketHeader` is written out byte by
  byte for a little-endian target (the header is copied in native order);
* a thrown `std::runtime_error(msg)` is `Except.error msg`.
-/

set_option maxRecDepth 20000

namespace BinaryProtocol

/-! ## Data model (`BinaryProtocol.hpp`) -/

/-- Bytes of an ASCII string literal of the source. -/
def strBytes (s : String) : List Nat := s.toList.map Char.toNat

/-- The enumeration `SQL_Tags : uint8_t`. -/
inductive SQL_Tags where
  | SELECT | INSERT | UPDATE | DELETE | FROM | SET | WHERE
  | VALUES | JOIN | ON | ORDER_BY | DESC | AS | GROUP_BY
  deriving DecidableEq

/-- The integer value of each enumerator: `SELECT = 0x01`, `INSERT = 0x02`,
`UPDATE = 0x03`, and each later enumerator one more than its predecessor. -/
def SQL_Tags.toByte : SQL_Tags → Nat
  | .SELECT => 0x01
  | .INSERT => 0x02
  | .UPDATE => 0x03
  | .DELETE => 0x03 + 1
  | .FROM => 0x03 + 2
  | .SET => 0x03 + 3
  | .WHERE => 0x03 + 4
  | .VALUES => 0x03 + 5
  | .JOIN => 0x03 + 6
  | .ON => 0x03 + 7
  | .ORDER_BY => 0x03 + 8
  | .DESC => 0x03 + 9
  | .AS => 0x03 + 10
  | .GROUP_BY => 0x03 + 11

/-- The packed structure `PacketHeader` (12 bytes: 2 + 1 + 1 + 4 + 4). -/
structure PacketHeader where
  magic : Nat
  version : Nat
  command : Nat
  request_id : Nat
  payload_size : Nat
  deriving DecidableEq

/-- The value of `sizeof(PacketHeader)` under `#pragma pack(push, 1)`. -/
def sizeofPacketHeader : Nat := 12

/-- The structure `PacketBase`; `PacketRequest` and `PacketResponse` derive from
it without adding members. -/
structure PacketBase where
  header : PacketHeader
  payload : List Nat
  deriving DecidableEq

/-! ## Packet framer (`BinaryProtocol.cpp`, lines 8-35) -/

/-- The constructor `PacketBase::PacketBase(cmd, req_id, payload)`:
`header{0xABCD, 1, static_cast<uint8_t>(cmd), req_id}`. The aggregate
initialiser names four of the five members; the fifth, `payload_size`, has no
default member initialiser and is therefore value-initialised to zero. -/
def PacketBase.new (cmd : Nat) (req_id : Nat) (payload : List Nat) : PacketBase :=
  { header := { magic := 0xABCD, version := 1, command := cmd % 256,
                request_id := req_id, payload_size := 0 },
    payload := payload }

/-- Object representation of a `uint16_t` on a little-endian target. -/
def bytes16 (v : Nat) : List Nat := [v % 256, v / 256 % 256]

/-- Object representation of a `uint32_t` on a little-endian target. -/
def bytes32 (v : Nat) : List Nat :=
  [v % 256, v / 256 % 256, v / 65536 % 256, v / 16777216 % 256]

/-- Object representation of the packed header, as `memcpy` copies it out. -/
def headerBytes (h : PacketHeader) : List Nat :=
  bytes16 h.magic ++ [h.version % 256, h.command % 256] ++
    bytes32 h.request_id ++ bytes32 h.payload_size

/-- The method `PacketBase::toBinary`: a buffer of `sizeof(PacketHeader) + payload.size()`
bytes holding the header followed by the payload. -/
def PacketBase.toBinary (p : PacketBase) : List Nat :=
  headerBytes p.header ++ p.payload

/-- A `uint16_t` read back from two bytes at offset `off` (little-endian). -/
def read16 (raw : List Nat) (off : Nat) : Nat :=
  raw.getD off 0 + 256 * raw.getD (off + 1) 0

/-- A `uint32_t` read back from four bytes at offset `off` (little-endian). -/
def read32 (raw : List Nat) (off : Nat) : Nat :=
  raw.getD off 0 + 256 * raw.getD (off + 1) 0 + 65536 * raw.getD (off + 2) 0 +
    16777216 * raw.getD (off + 3) 0

/-- The header that `memcpy(&header, raw.data(), sizeof(PacketHeader))` fills in. -/
def readHeader (raw : List Nat) : PacketHeader :=
  { magic := read16 raw 0, version := raw.getD 2 0, command := raw.getD 3 0,
    request_id := read32 raw 4, payload_size := read32 raw 8 }

/-- The static method `PacketBase::fromBinary`. -/
def PacketBase.fromBinary (raw : List Nat) : Except String PacketBase :=
  if raw.length < sizeofPacketHeader then
    .error "Invalid packet size"
  else
    let header := readHeader raw
    if header.magic ≠ 0xABCD then
      .error "Invalid packet signature"
    else
      let payload := raw.drop sizeofPacketHeader
      .ok (PacketBase.new header.command header.request_id payload)

/-! ## Tagged payload codec (`BinaryProtocol.cpp`, lines 46-115) -/

/-- The constructor `PacketRequest::PacketRequest`, which forwards to the base. -/
def PacketRequest.new (cmd : Nat) (req_id : Nat) (payload : List Nat) : PacketBase :=
  PacketBase.new cmd req_id payload

/-- The method `PacketRequest::addData(const std::string& data_bytes)`. -/
def PacketRequest.addData (p : PacketBase) (data_bytes : List Nat) : PacketBase :=
  let sz := data_bytes.length
  let payload :=
    if sz < 0xFF then
      p.payload ++ [sz % 256]
    else
      p.payload ++ [0xFF % 256] ++ [(sz >>> 8) % 256] ++ [(sz &&& 0xFF) % 256]
  { p with payload := payload ++ data_bytes }

/-- The method `PacketRequest::addData(SQL_Tags tag, const std::string& data)`. -/
def PacketRequest.addDataTagged (p : PacketBase) (tag : SQL_Tags) (data : List Nat) :
    PacketBase :=
  PacketRequest.addData { p with payload := p.payload ++ [tag.toByte] } data

/-- The table `tagNames` of `getQuery`, as its list of (key, value) pairs. -/
def tagNames : List (Nat × List Nat) :=
  [ (SQL_Tags.SELECT.toByte, strBytes "SELECT"),
    (SQL_Tags.INSERT.toByte, strBytes "INSERT INTO"),
    (SQL_Tags.UPDATE.toByte, strBytes "UPDATE"),
    (SQL_Tags.DELETE.toByte, strBytes "DELETE FROM"),
    (SQL_Tags.FROM.toByte, strBytes "FROM"),
    (SQL_Tags.SET.toByte, strBytes "SET"),
    (SQL_Tags.WHERE.toByte, strBytes "WHERE"),
    (SQL_Tags.VALUES.toByte, strBytes "VALUES"),
    (SQL_Tags.JOIN.toByte, strBytes "JOIN"),
    (SQL_Tags.ON.toByte, strBytes "ON"),
    (SQL_Tags.ORDER_BY.toByte, strBytes "ORDER BY"),
    (SQL_Tags.DESC.toByte, strBytes "DESC"),
    (SQL_Tags.AS.toByte, strBytes "AS"),
    (SQL_Tags.GROUP_BY.toByte, strBytes "GROUP BY") ]

/-- The lookup `tagNames.find(tagValue)` with its fallback:
`(tagIt != tagNames.end()) ? tagIt->second : "UNKNOWN_TAG"`. -/
def tagStr (tagValue : Nat) : List Nat :=
  match tagNames.lookup tagValue with
  | some name => name
  | none => strBytes "UNKNOWN_TAG"

/-- The call `payload.substr(pos, sz)` for `pos ≤ payload.size()`. -/
def substr (payload : List Nat) (pos sz : Nat) : List Nat :=
  (payload.drop pos).take sz

/-- The `while (pos < payload.size())` loop of `getQuery`, as a function of the
cursor `pos` and the accumulated `result`; a `break` returns the accumulator.
`payload[i]` is `payload.getD i 0`: the only index the loop can read outside
`0 .. size-1` is `size` itself, where `std::string::operator[]` yields the
terminating zero character. -/
@[semireducible]
def getQueryLoop (payload : List Nat) (pos : Nat) (result : List Nat) : List Nat :=
  if pos < payload.length then
    let tagValue := payload.getD pos 0
    let pos1 := pos + 1
    let result1 := result ++ (tagStr tagValue ++ strBytes " ")
    let sz := payload.getD pos1 0
    let pos2 := pos1 + 1
    if sz = 0xFF then
      if pos2 + 2 > payload.length then result1
      else
        let sz2 := (payload.getD pos2 0 <<< 8) ||| payload.getD (pos2 + 1) 0
        let pos3 := pos2 + 2
        if pos3 + sz2 > payload.length then result1
        else
          getQueryLoop payload (pos3 + sz2)
            (result1 ++ (substr payload pos3 sz2 ++ strBytes " "))
    else
      if pos2 + sz > payload.length then result1
      else
        getQueryLoop payload (pos2 + sz)
          (result1 ++ (substr payload pos2 sz ++ strBytes " "))
  else result
termination_by payload.length - pos
decreasing_by all_goals omega

/-- The method `PacketRequest::getQuery`. -/
def PacketRequest.getQuery (p : PacketBase) : List Nat :=
  getQueryLoop p.payload 0 [] ++ strBytes ";"

/-! ## Vocabulary for stating the codec theorems -/

/-- The length prefix that `addData(data_bytes)` writes for a data length `sz`:
the bytes the two branches of its `if (sz < 0xFF)` append before the data. -/
def sizeBytes (sz : Nat) : List Nat :=
  if sz < 0xFF then [sz % 256] else [0xFF % 256, (sz >>> 8) % 256, (sz &&& 0xFF) % 256]

/-- The wire form of a list of tagged entries: for each entry the tag byte, the
length prefix and the data, in order. -/
def wireBytes : List (SQL_Tags × List Nat) → List Nat
  | [] => []
  | (t, d) :: es => t.toByte :: (sizeBytes d.length ++ (d ++ wireBytes es))

/-- The text of a list of tagged entries: for each entry the keyword of its
tag, a space, the data and a space, in order. -/
def queryText : List (SQL_Tags × List Nat) → List Nat
  | [] => []
  | (t, d) :: es => (tagStr t.toByte ++ strBytes " ") ++ ((d ++ strBytes " ") ++ queryText es)

/-- A request built from an empty `PacketRequest(cmd, req_id)` by calling
`addData(tag, data)` for each entry of `es` in order. -/
def buildRequest (cmd req_id : Nat) (es : List (SQL_Tags × List Nat)) : PacketBase :=
  es.foldl (fun p e => PacketRequest.addDataTagged p e.1 e.2) (PacketRequest.new cmd req_id [])

/-- The indices at which the loop of `getQuery` subscripts or copies from
`payload`, in the order of the reads, from cursor `pos` on: the tag byte
(`payload[pos++]`), the length byte (`payload[pos++]`), the two extended-length
bytes (`payload[pos]`, `payload[pos + 1]`) and the `sz` data bytes that
`substr(pos, sz)` copies. The control flow is that of `getQueryLoop`. -/
@[semireducible]
def getQueryReads (payload : List Nat) (pos : Nat) : List Nat :=
  if pos < payload.length then
    let pos1 := pos + 1
    let sz := payload.getD pos1 0
    let pos2 := pos1 + 1
    if sz = 0xFF then
      if pos2 + 2 > payload.length then [pos, pos1]
      else
        let sz2 := (payload.getD pos2 0 <<< 8) ||| payload.getD (pos2 + 1) 0
        let pos3 := pos2 + 2
        if pos3 + sz2 > payload.length then [pos, pos1, pos2, pos2 + 1]
        else
          [pos, pos1, pos2, pos2 + 1] ++ List.range' pos3 sz2 ++
            getQueryReads payload (pos3 + sz2)
    else
      if pos2 + sz > payload.length then [pos, pos1]
      else
        [pos, pos1] ++ List.range' pos2 sz ++ getQueryReads payload (pos2 + sz)
  else []
termination_by payload.length - pos
decreasing_by all_goals omega

/-! ## `getQuery` with its failure modes made explicit -/

/-- The ways an execution of `getQuery` could fail to return a string: a
subscript beyond the terminating character (undefined behaviour), a
`std::out_of_range` thrown by `substr`, or a loop still running when the
iteration budget is used up. -/
inductive QueryFault where
  | undefinedRead
  | outOfRange
  | fuelExhausted
  deriving DecidableEq

/-- The subscript `payload[i]` of `std::string`: the byte at `i` for `i < size()`,
the terminating zero character for `i = size()` (the default of `getD`), and
undefined behaviour beyond. -/
def subscript (payload : List Nat) (i : Nat) : Except QueryFault Nat :=
  if i ≤ payload.length then .ok (payload.getD i 0) else .error .undefinedRead

/-- The call `payload.substr(pos, sz)`: it throws `std::out_of_range` when
`pos > size()` and otherwise returns at most `sz` characters from `pos` on. -/
def substrChecked (payload : List Nat) (pos sz : Nat) : Except QueryFault (List Nat) :=
  if pos > payload.length then .error .outOfRange else .ok ((payload.drop pos).take sz)

/-- The `while` loop of `getQuery` run for at most `fuel` evaluations of its
condition, with every subscript and every `substr` call checked: each
evaluation of `pos < payload.size()` costs one unit of `fuel`. -/
def getQueryRun (payload : List Nat) :
    Nat → Nat → List Nat → Except QueryFault (List Nat)
  | 0, _, _ => .error .fuelExhausted
  | fuel + 1, pos, result =>
    if pos < payload.length then do
      let tagValue ← subscript payload pos
      let pos1 := pos + 1
      let result1 := result ++ (tagStr tagValue ++ strBytes " ")
      let sz ← subscript payload pos1
      let pos2 := pos1 + 1
      if sz = 0xFF then
        if pos2 + 2 > payload.length then pure result1
        else do
          let hi ← subscript payload pos2
          let lo ← subscript payload (pos2 + 1)
          let sz2 := (hi <<< 8) ||| lo
          let pos3 := pos2 + 2
          if pos3 + sz2 > payload.length then pure result1
          else do
            let data ← substrChecked payload pos3 sz2
            getQueryRun payload fuel (pos3 + sz2) (result1 ++ (data ++ strBytes " "))
      else
        if pos2 + sz > payload.length then pure result1
        else do
          let data ← substrChecked payload pos2 sz
          getQueryRun payload fuel (pos2 + sz) (result1 ++ (data ++ strBytes " "))
    else pure result

/-- The method `PacketRequest::getQuery` run with an iteration budget and with
its failure modes explicit: the loop, then `result += ";"`. -/
def PacketRequest.getQueryChecked (p : PacketBase) (fuel : Nat) :
    Except QueryFault (List Nat) := do
  let result ← getQueryRun p.payload fuel 0 []
  pure (result ++ strBytes ";")

/-! ## Serializer (`BinaryProtocol.cpp`, lines 130-145) -/

/-- The value of `sizeof(int32_t)`. -/
def sizeofInt32 : Nat := 4

/-- The `int32_t` whose two's-complement object representation is the 32-bit
pattern `u`. -/
def toInt32 (u : Nat) : Int :=
  if u % 4294967296 < 2147483648 then (u % 4294967296 : Nat)
  else ((u % 4294967296 : Nat) : Int) - 4294967296

/-- The function `Serializer::decodeInt`: the size guard, then `memcpy` of the
first `sizeof(int32_t)` bytes into the value (little-endian). -/
def Serializer.decodeInt (data : List Nat) : Except String Int :=
  if data.length < sizeofInt32 then
    .error "Invalid int32 size"
  else
    .ok (toInt32 (read32 data 0))

/-! ## Theorems: packet framer -/

/-- The serialised form of a freshly constructed packet, byte by byte. -/
theorem toBinary_new (c r : Nat) (p : List Nat) :
    (PacketBase.new c r p).toBinary =
      0xCD :: 0xAB :: 1 :: (c % 256 % 256) :: (r % 256) :: (r / 256 % 256) ::
        (r / 65536 % 256) :: (r / 16777216 % 256) :: 0 :: 0 :: 0 :: 0 :: p := by
  simp only [PacketBase.toBinary, PacketBase.new, headerBytes, bytes16, bytes32]
  rfl

/-- Deserialisation of a buffer whose first twelve bytes are given explicitly. -/
theorem fromBinary_cons (b0 b1 b2 b3 b4 b5 b6 b7 b8 b9 b10 b11 : Nat) (p : List Nat) :
    PacketBase.fromBinary
        (b0 :: b1 :: b2 :: b3 :: b4 :: b5 :: b6 :: b7 :: b8 :: b9 :: b10 :: b11 :: p)
      = if b0 + 256 * b1 ≠ 0xABCD then .error "Invalid packet signature"
        else .ok (PacketBase.new b3 (b4 + 256 * b5 + 65536 * b6 + 16777216 * b7) p) := by
  have hlen : ¬ (b0 :: b1 :: b2 :: b3 :: b4 :: b5 :: b6 :: b7 :: b8 :: b9 :: b10 :: b11 ::
      p).length < sizeofPacketHeader := by
    simp only [List.length_cons, sizeofPacketHeader]; omega
  simp only [PacketBase.fromBinary, hlen, if_false]
  rfl

/-- Every buffer of at least twelve bytes starts with twelve explicit bytes. -/
theorem exists_header_bytes (raw : List Nat) (h : 12 ≤ raw.length) :
    ∃ b0 b1 b2 b3 b4 b5 b6 b7 b8 b9 b10 b11 p,
      raw = b0 :: b1 :: b2 :: b3 :: b4 :: b5 :: b6 :: b7 :: b8 :: b9 :: b10 :: b11 :: p := by
  match raw, h with
  | b0 :: b1 :: b2 :: b3 :: b4 :: b5 :: b6 :: b7 :: b8 :: b9 :: b10 :: b11 :: p, _ =>
    exact ⟨b0, b1, b2, b3, b4, b5, b6, b7, b8, b9, b10, b11, p, rfl⟩

/-- Four little-endian bytes of a 32-bit value recombine to the value. -/
theorem bytes32_recombine (r : Nat) (hr : r < 2 ^ 32) :
    r % 256 + 256 * (r / 256 % 256) + 65536 * (r / 65536 % 256) +
      16777216 * (r / 16777216 % 256) = r := by
  have hr3 : r < 4294967296 := hr
  omega

/-- C1: for every command byte `c`, 32-bit request id `r` and payload `p`,
deserialising the serialisation of the packet constructed from `(c, r, p)`
succeeds and yields the packet with command `c`, request id `r` and payload `p`. -/
theorem C1_header_roundtrip (c r : Nat) (p : List Nat) (hc : c < 256) (hr : r < 2 ^ 32) :
    ∃ q, PacketBase.fromBinary (PacketBase.new c r p).toBinary = .ok q ∧
      q.header.command = c ∧ q.header.request_id = r ∧ q.payload = p := by
  have hc2 : c % 256 = c := Nat.mod_eq_of_lt hc
  refine ⟨PacketBase.new c r p, ?_, hc2, rfl, rfl⟩
  rw [toBinary_new, fromBinary_cons, hc2, hc2, bytes32_recombine r hr]
  rw [if_neg (by decide)]

/-- C1 at the out-of-enumeration command byte 0x7E with a four-byte payload. -/
theorem C1_header_roundtrip_witness :
    (0x7E < 256 ∧ 0xDEADBEEF < 2 ^ 32) ∧
      ∃ q, PacketBase.fromBinary (PacketBase.new 0x7E 0xDEADBEEF [0, 255, 10, 13]).toBinary
          = .ok q ∧
        q.header.command = 0x7E ∧ q.header.request_id = 0xDEADBEEF ∧
        q.payload = [0, 255, 10, 13] :=
  ⟨⟨by decide, by norm_num⟩,
    C1_header_roundtrip 0x7E 0xDEADBEEF [0, 255, 10, 13] (by decide) (by norm_num)⟩

/-- C4: every buffer shorter than twelve bytes is rejected with the
"Invalid packet size" error, whatever its contents. -/
theorem C4_short_buffer_rejected (raw : List Nat) (h : raw.length < 12) :
    PacketBase.fromBinary raw = .error "Invalid packet size" := by
  simp only [PacketBase.fromBinary, sizeofPacketHeader, h, if_true]

/-- C4 at an eleven-byte buffer whose first two bytes are not the magic. -/
theorem C4_short_buffer_rejected_witness :
    [0x12, 0x34, 1, 2, 0, 0, 0, 0, 0, 0, 0].length < 12 ∧
      PacketBase.fromBinary [0x12, 0x34, 1, 2, 0, 0, 0, 0, 0, 0, 0]
        = .error "Invalid packet size" :=
  ⟨by decide, C4_short_buffer_rejected [0x12, 0x34, 1, 2, 0, 0, 0, 0, 0, 0, 0] (by decide)⟩

/-- C5: every buffer of at least twelve bytes whose first two bytes, read as
a little-endian 16-bit integer, differ from 0xABCD is rejected with the
"Invalid packet signature" error. -/
theorem C5_bad_magic_rejected (raw : List Nat) (h : 12 ≤ raw.length)
    (hm : raw.getD 0 0 + 256 * raw.getD 1 0 ≠ 0xABCD) :
    PacketBase.fromBinary raw = .error "Invalid packet signature" := by
  have h2 : ¬ raw.length < 12 := by omega
  simp only [PacketBase.fromBinary, sizeofPacketHeader, h2, if_false, readHeader, read16]
  rw [if_pos hm]

/-- C5 at a buffer whose magic bytes are in big-endian order (AB CD). -/
theorem C5_bad_magic_rejected_witness :
    (12 ≤ [0xAB, 0xCD, 1, 2, 0, 0, 0, 0, 0, 0, 0, 0, 5].length ∧
      [0xAB, 0xCD, 1, 2, 0, 0, 0, 0, 0, 0, 0, 0, 5].getD 0 0 +
        256 * [0xAB, 0xCD, 1, 2, 0, 0, 0, 0, 0, 0, 0, 0, 5].getD 1 0 ≠ 0xABCD) ∧
      PacketBase.fromBinary [0xAB, 0xCD, 1, 2, 0, 0, 0, 0, 0, 0, 0, 0, 5]
        = .error "Invalid packet signature" :=
  ⟨⟨by decide, by decide⟩,
    C5_bad_magic_rejected [0xAB, 0xCD, 1, 2, 0, 0, 0, 0, 0, 0, 0, 0, 5] (by decide) (by decide)⟩

/-- C6: every buffer of at least twelve bytes carrying the magic 0xABCD is
accepted, its payload is the bytes from offset 12 to the end, and any buffer
that agrees with it outside bytes 8..11 decodes to the same result. -/
theorem C6_payload_size_ignored (raw : List Nat) (h : 12 ≤ raw.length)
    (hm : raw.getD 0 0 + 256 * raw.getD 1 0 = 0xABCD) :
    (∃ q, PacketBase.fromBinary raw = .ok q ∧ q.payload = raw.drop 12 ∧
        q.header.command = raw.getD 3 0 % 256 ∧ q.header.request_id = read32 raw 4) ∧
      ∀ raw2 : List Nat, 12 ≤ raw2.length → raw2.take 8 = raw.take 8 →
        raw2.drop 12 = raw.drop 12 → PacketBase.fromBinary raw2 = PacketBase.fromBinary raw := by
  obtain ⟨b0, b1, b2, b3, b4, b5, b6, b7, b8, b9, b10, b11, p, rfl⟩ :=
    exists_header_bytes raw h
  have hm2 : b0 + 256 * b1 = 0xABCD := hm
  constructor
  · refine ⟨PacketBase.new b3 (b4 + 256 * b5 + 65536 * b6 + 16777216 * b7) p, ?_, rfl, rfl, rfl⟩
    rw [fromBinary_cons, if_neg (by rw [hm2]; decide)]
  · intro raw2 h2 htake hdrop
    obtain ⟨a0, a1, a2, a3, a4, a5, a6, a7, a8, a9, a10, a11, p2, rfl⟩ :=
      exists_header_bytes raw2 h2
    simp only [List.take_succ_cons, List.take_zero, List.cons.injEq, and_true] at htake
    simp only [List.drop_succ_cons, List.drop_zero] at hdrop
    obtain ⟨e0, e1, e2, e3, e4, e5, e6, e7⟩ := htake
    subst e0 e1 e2 e3 e4 e5 e6 e7 hdrop
    rw [fromBinary_cons, fromBinary_cons]

/-- C6 at a one-byte-payload buffer whose size field holds 0xFFFFFFFF, against
the same buffer with the size field 1. -/
theorem C6_payload_size_ignored_witness :
    (12 ≤ [0xCD, 0xAB, 1, 2, 7, 0, 0, 0, 255, 255, 255, 255, 9].length ∧
      [0xCD, 0xAB, 1, 2, 7, 0, 0, 0, 255, 255, 255, 255, 9].getD 0 0 +
        256 * [0xCD, 0xAB, 1, 2, 7, 0, 0, 0, 255, 255, 255, 255, 9].getD 1 0 = 0xABCD) ∧
      PacketBase.fromBinary [0xCD, 0xAB, 1, 2, 7, 0, 0, 0, 1, 0, 0, 0, 9] =
        PacketBase.fromBinary [0xCD, 0xAB, 1, 2, 7, 0, 0, 0, 255, 255, 255, 255, 9] :=
  ⟨⟨by decide, by decide⟩,
    (C6_payload_size_ignored [0xCD, 0xAB, 1, 2, 7, 0, 0, 0, 255, 255, 255, 255, 9]
      (by decide) (by decide)).2 [0xCD, 0xAB, 1, 2, 7, 0, 0, 0, 1, 0, 0, 0, 9]
      (by decide) (by decide) (by decide)⟩

/-- C7: the serialisation of the packet constructed from `(c, r, p)` has
`12 + len(p)` bytes; bytes 0..1 are the magic 0xABCD in little-endian order,
byte 2 is the version 1, byte 3 is `c`, bytes 4..7 are `r` in little-endian
order, and the bytes from offset 12 onward are `p`. -/
theorem C7_toBinary_layout (c r : Nat) (p : List Nat) (hc : c < 256) (hr : r < 2 ^ 32) :
    (PacketBase.new c r p).toBinary.length = 12 + p.length ∧
      (PacketBase.new c r p).toBinary.take 8 =
        [0xCD, 0xAB, 1, c, r % 256, r / 256 % 256, r / 65536 % 256, r / 16777216 % 256] ∧
      read16 (PacketBase.new c r p).toBinary 0 = 0xABCD ∧
      read32 (PacketBase.new c r p).toBinary 4 = r ∧
      (PacketBase.new c r p).toBinary.drop 12 = p := by
  have hc2 : c % 256 = c := Nat.mod_eq_of_lt hc
  rw [toBinary_new, hc2, hc2]
  refine ⟨?_, rfl, ?_, ?_, rfl⟩
  · simp only [List.length_cons]; omega
  · simp only [read16, List.getD_cons_zero, List.getD_cons_succ]
  · simp only [read32, List.getD_cons_zero, List.getD_cons_succ]
    exact bytes32_recombine r hr

/-- C7 at command PING (0xFF), request id 0x01020304 and payload "hi". -/
theorem C7_toBinary_layout_witness :
    (0xFF < 256 ∧ 0x01020304 < 2 ^ 32) ∧
      (PacketBase.new 0xFF 0x01020304 [104, 105]).toBinary =
        [0xCD, 0xAB, 1, 0xFF, 4, 3, 2, 1, 0, 0, 0, 0, 104, 105] ∧
      (PacketBase.new 0xFF 0x01020304 [104, 105]).toBinary.drop 12 = [104, 105] :=
  ⟨⟨by decide, by norm_num⟩, by decide,
    (C7_toBinary_layout 0xFF 0x01020304 [104, 105] (by decide) (by norm_num)).2.2.2.2⟩

/-! ## Theorems: tagged payload codec -/

theorem addData_payload (p : PacketBase) (d : List Nat) :
    (PacketRequest.addData p d).payload = p.payload ++ (sizeBytes d.length ++ d) := by
  unfold PacketRequest.addData sizeBytes
  by_cases h : d.length < 0xFF
  · simp only [h, if_true, List.append_assoc]
  · simp only [h, if_false, List.append_assoc, List.singleton_append]
    rfl

/-- The loop exits with its accumulator once the cursor has reached the end. -/
theorem getQueryLoop_done (payload : List Nat) (pos : Nat) (r : List Nat)
    (h : payload.length ≤ pos) : getQueryLoop payload pos r = r := by
  rw [getQueryLoop, if_neg (by omega)]

/-- One iteration on an entry with a one-byte length that fits in the payload. -/
theorem getQueryLoop_short (payload : List Nat) (pos : Nat) (r : List Nat)
    (h : pos < payload.length) (hsz : payload.getD (pos + 1) 0 ≠ 0xFF)
    (hfit : pos + 1 + 1 + payload.getD (pos + 1) 0 ≤ payload.length) :
    getQueryLoop payload pos r =
      getQueryLoop payload (pos + 1 + 1 + payload.getD (pos + 1) 0)
        (r ++ (tagStr (payload.getD pos 0) ++ strBytes " ") ++
          (substr payload (pos + 1 + 1) (payload.getD (pos + 1) 0) ++ strBytes " ")) := by
  rw [getQueryLoop.eq_1 payload pos r]
  simp only [if_pos h, if_neg hsz]
  rw [if_neg (by omega)]

/-- One iteration on an entry with a one-byte length that runs past the end:
the loop breaks after the keyword has been appended. -/
theorem getQueryLoop_short_trunc (payload : List Nat) (pos : Nat) (r : List Nat)
    (h : pos < payload.length) (hsz : payload.getD (pos + 1) 0 ≠ 0xFF)
    (hfit : payload.length < pos + 1 + 1 + payload.getD (pos + 1) 0) :
    getQueryLoop payload pos r = r ++ (tagStr (payload.getD pos 0) ++ strBytes " ") := by
  rw [getQueryLoop.eq_1 payload pos r]
  simp only [if_pos h, if_neg hsz]
  rw [if_pos (by omega)]

/-- One iteration on an entry with an extended length that fits in the payload. -/
theorem getQueryLoop_ext (payload : List Nat) (pos : Nat) (r : List Nat)
    (h : pos < payload.length) (hsz : payload.getD (pos + 1) 0 = 0xFF)
    (hlen : pos + 1 + 1 + 2 ≤ payload.length)
    (hfit : pos + 1 + 1 + 2 +
      ((payload.getD (pos + 1 + 1) 0 <<< 8) ||| payload.getD (pos + 1 + 1 + 1) 0) ≤ payload.length) :
    getQueryLoop payload pos r =
      getQueryLoop payload (pos + 1 + 1 + 2 +
          ((payload.getD (pos + 1 + 1) 0 <<< 8) ||| payload.getD (pos + 1 + 1 + 1) 0))
        (r ++ (tagStr (payload.getD pos 0) ++ strBytes " ") ++
          (substr payload (pos + 1 + 1 + 2)
            ((payload.getD (pos + 1 + 1) 0 <<< 8) ||| payload.getD (pos + 1 + 1 + 1) 0) ++
            strBytes " ")) := by
  rw [getQueryLoop.eq_1 payload pos r]
  simp only [if_pos h, if_pos hsz]
  rw [if_neg (by omega), if_neg (by omega)]

/-- One iteration on an entry with the extended-length marker whose length bytes
or data run past the end: the loop breaks after the keyword has been appended. -/
theorem getQueryLoop_ext_trunc (payload : List Nat) (pos : Nat) (r : List Nat)
    (h : pos < payload.length) (hsz : payload.getD (pos + 1) 0 = 0xFF)
    (hfit : payload.length < pos + 1 + 1 + 2 ∨ payload.length < pos + 1 + 1 + 2 +
      ((payload.getD (pos + 1 + 1) 0 <<< 8) ||| payload.getD (pos + 1 + 1 + 1) 0)) :
    getQueryLoop payload pos r = r ++ (tagStr (payload.getD pos 0) ++ strBytes " ") := by
  rw [getQueryLoop.eq_1 payload pos r]
  simp only [if_pos h, if_pos hsz]
  by_cases h2 : pos + 1 + 1 + 2 > payload.length
  · rw [if_pos h2]
  · rw [if_neg h2, if_pos (by omega)]

/-- The byte right after a known initial segment. -/
theorem getD_append_cons (pre : List Nat) (x : Nat) (rest : List Nat) :
    (pre ++ x :: rest).getD pre.length 0 = x := by
  rw [List.getD_append_right _ _ _ _ (Nat.le_refl _), Nat.sub_self]
  rfl

/-- The bytes further after a known initial segment. -/
theorem getD_append_cons_succ (pre : List Nat) (x : Nat) (rest : List Nat) (k : Nat) :
    (pre ++ x :: rest).getD (pre.length + 1 + k) 0 = rest.getD k 0 := by
  rw [List.getD_append_right _ _ _ _ (by omega)]
  have : pre.length + 1 + k - pre.length = k + 1 := by omega
  rw [this]
  rfl

/-- The substring that starts after a known initial segment and spans the next one. -/
theorem substr_append (a d rest : List Nat) :
    substr (a ++ (d ++ rest)) a.length d.length = d := by
  unfold substr
  rw [List.drop_left, List.take_left]

/-- The two length bytes written by `addData`, combined as `getQuery` combines them,
give back a length that fits in 16 bits. -/
theorem size_bytes_decode (n : Nat) (h : n ≤ 65535) :
    (((n >>> 8) % 256) <<< 8) ||| ((n &&& 0xFF) % 256) = n := by
  have h1 : n &&& 0xFF = n % 256 := Nat.and_pow_two_sub_one_eq_mod n 8
  rw [h1, Nat.shiftRight_eq_div_pow, Nat.shiftLeft_eq, Nat.mod_mod]
  have h2 : n % 256 < 2 ^ 8 := Nat.mod_lt _ (by norm_num)
  have h3 := Nat.mul_add_lt_is_or h2 (n / 2 ^ 8 % 256)
  rw [Nat.mul_comm, ← h3]
  norm_num
  omega

/-- The loop, started at a well-formed entry, consumes it and appends its text. -/
theorem getQueryLoop_entry (pre : List Nat) (t : Nat) (d rest r : List Nat)
    (hd : d.length ≤ 65535) :
    getQueryLoop (pre ++ t :: (sizeBytes d.length ++ (d ++ rest))) pre.length r =
      getQueryLoop (pre ++ t :: (sizeBytes d.length ++ (d ++ rest)))
        ((pre ++ t :: (sizeBytes d.length ++ d)).length)
        (r ++ (tagStr t ++ strBytes " ") ++ (d ++ strBytes " ")) := by
  by_cases hs : d.length < 0xFF
  · have hsb : sizeBytes d.length = [d.length] := by
      unfold sizeBytes
      rw [if_pos hs, Nat.mod_eq_of_lt (by omega)]
    rw [hsb]
    have e0 : (pre ++ t :: ([d.length] ++ (d ++ rest))).getD pre.length 0 = t :=
      getD_append_cons _ _ _
    have e1 : (pre ++ t :: ([d.length] ++ (d ++ rest))).getD (pre.length + 1) 0 = d.length :=
      getD_append_cons_succ pre t _ 0
    have hlen : (pre ++ t :: ([d.length] ++ (d ++ rest))).length =
        pre.length + 1 + 1 + d.length + rest.length := by
      simp only [List.length_append, List.length_cons, List.length_nil]; omega
    have hsub : substr (pre ++ t :: ([d.length] ++ (d ++ rest))) (pre.length + 1 + 1) d.length
        = d := by
      have := substr_append (pre ++ [t, d.length]) d rest
      simpa using this
    rw [getQueryLoop_short _ _ _ (by omega) (by rw [e1]; omega) (by rw [e1]; omega), e0, e1, hsub]
    congr 1
    simp only [List.length_append, List.length_cons, List.length_nil]
    omega
  · have hsb : sizeBytes d.length =
        [0xFF, (d.length >>> 8) % 256, (d.length &&& 0xFF) % 256] := by
      unfold sizeBytes
      rw [if_neg hs]
    rw [hsb]
    generalize hhi : (d.length >>> 8) % 256 = hi
    generalize hlo : (d.length &&& 0xFF) % 256 = lo
    have hdec : (hi <<< 8) ||| lo = d.length := by
      rw [← hhi, ← hlo]; exact size_bytes_decode _ hd
    have e0 : (pre ++ t :: ([0xFF, hi, lo] ++ (d ++ rest))).getD pre.length 0 = t :=
      getD_append_cons _ _ _
    have e1 : (pre ++ t :: ([0xFF, hi, lo] ++ (d ++ rest))).getD (pre.length + 1) 0 = 0xFF :=
      getD_append_cons_succ pre t _ 0
    have e2 : (pre ++ t :: ([0xFF, hi, lo] ++ (d ++ rest))).getD (pre.length + 1 + 1) 0 = hi :=
      getD_append_cons_succ pre t _ 1
    have e3 : (pre ++ t :: ([0xFF, hi, lo] ++ (d ++ rest))).getD (pre.length + 1 + 1 + 1) 0
        = lo := getD_append_cons_succ pre t _ 2
    have hlen : (pre ++ t :: ([0xFF, hi, lo] ++ (d ++ rest))).length =
        pre.length + 1 + 1 + 2 + d.length + rest.length := by
      simp only [List.length_append, List.length_cons, List.length_nil]; omega
    have hsub : substr (pre ++ t :: ([0xFF, hi, lo] ++ (d ++ rest))) (pre.length + 1 + 1 + 2)
        d.length = d := by
      have := substr_append (pre ++ [t, 0xFF, hi, lo]) d rest
      simpa using this
    rw [getQueryLoop_ext _ _ _ (by omega) e1 (by omega) (by rw [e2, e3, hdec]; omega),
      e0, e2, e3, hdec, hsub]
    congr 1
    simp only [List.length_append, List.length_cons, List.length_nil]
    omega

/-- The payload after a sequence of tagged appends. -/
theorem foldl_addDataTagged_payload (es : List (SQL_Tags × List Nat)) (p : PacketBase) :
    (es.foldl (fun p e => PacketRequest.addDataTagged p e.1 e.2) p).payload =
      p.payload ++ wireBytes es := by
  induction es generalizing p with
  | nil => simp only [List.foldl_nil, wireBytes, List.append_nil]
  | cons e es ih =>
    obtain ⟨t, d⟩ := e
    rw [List.foldl_cons, ih]
    unfold PacketRequest.addDataTagged
    rw [addData_payload]
    simp only [wireBytes, List.append_assoc, List.singleton_append, List.cons_append,
      List.nil_append]

/-- Tagged appends leave the header alone. -/
theorem foldl_addDataTagged_header (es : List (SQL_Tags × List Nat)) (p : PacketBase) :
    (es.foldl (fun p e => PacketRequest.addDataTagged p e.1 e.2) p).header = p.header := by
  induction es generalizing p with
  | nil => rfl
  | cons e es ih => rw [List.foldl_cons, ih]; rfl

/-- The payload of a built request is the wire form of its entries. -/
theorem buildRequest_payload (cmd req_id : Nat) (es : List (SQL_Tags × List Nat)) :
    (buildRequest cmd req_id es).payload = wireBytes es := by
  unfold buildRequest
  rw [foldl_addDataTagged_payload]
  rfl

/-- The loop, started at a run of well-formed entries, consumes them all and
appends their text. -/
theorem getQueryLoop_entries (es : List (SQL_Tags × List Nat)) (pre rest r : List Nat)
    (hes : ∀ e ∈ es, e.2.length ≤ 65535) :
    getQueryLoop (pre ++ (wireBytes es ++ rest)) pre.length r =
      getQueryLoop (pre ++ (wireBytes es ++ rest)) (pre ++ wireBytes es).length
        (r ++ queryText es) := by
  induction es generalizing pre r with
  | nil => simp only [wireBytes, queryText, List.append_nil]
  | cons e es ih =>
    obtain ⟨t, d⟩ := e
    have hd : d.length ≤ 65535 := hes (t, d) (List.mem_cons_self _ _)
    have hes2 : ∀ e ∈ es, e.2.length ≤ 65535 := fun e he => hes e (List.mem_cons_of_mem _ he)
    have step := getQueryLoop_entry pre t.toByte d (wireBytes es ++ rest) r hd
    have ih2 := ih (pre ++ t.toByte :: (sizeBytes d.length ++ d)) 
      (r ++ (tagStr t.toByte ++ strBytes " ") ++ (d ++ strBytes " ")) hes2
    have e1 : pre ++ (wireBytes ((t, d) :: es) ++ rest) =
        pre ++ t.toByte :: (sizeBytes d.length ++ (d ++ (wireBytes es ++ rest))) := by
      simp only [wireBytes, List.append_assoc, List.cons_append]
    have e2 : (pre ++ t.toByte :: (sizeBytes d.length ++ d)) ++ (wireBytes es ++ rest) =
        pre ++ t.toByte :: (sizeBytes d.length ++ (d ++ (wireBytes es ++ rest))) := by
      simp only [List.append_assoc, List.cons_append]
    have e3 : (pre ++ t.toByte :: (sizeBytes d.length ++ d)) ++ wireBytes es =
        pre ++ wireBytes ((t, d) :: es) := by
      simp only [wireBytes, List.append_assoc, List.cons_append]
    rw [e2, e3] at ih2
    rw [e1, step, ih2]
    congr 1
    simp only [queryText, List.append_assoc]

/-- The query text of a request built by tagged appends: the loop consumes the
whole payload and accumulates the text of every entry. -/
theorem getQuery_buildRequest (cmd req_id : Nat) (es : List (SQL_Tags × List Nat))
    (hes : ∀ e ∈ es, e.2.length ≤ 65535) :
    PacketRequest.getQuery (buildRequest cmd req_id es) = queryText es ++ strBytes ";" := by
  unfold PacketRequest.getQuery
  rw [buildRequest_payload]
  have h := getQueryLoop_entries es [] [] [] hes
  simp only [List.nil_append, List.append_nil, List.length_nil] at h
  rw [h, getQueryLoop_done _ _ _ (Nat.le_refl _)]

/-- C2: for every list of tagged entries whose data are at most 65535 bytes
long, `getQuery` on the payload built by `addData(tag, data)` in order returns
the concatenation of keyword, space, data, space for each entry, followed by
";"; in particular (SELECT, "*") then (FROM, "users") gives
"SELECT * FROM users ;". -/
theorem C2_query_reconstruction (cmd req_id : Nat) (es : List (SQL_Tags × List Nat))
    (hes : ∀ e ∈ es, e.2.length ≤ 65535) :
    PacketRequest.getQuery (buildRequest cmd req_id es) = queryText es ++ strBytes ";" ∧
      PacketRequest.getQuery
          (buildRequest cmd req_id [(.SELECT, strBytes "*"), (.FROM, strBytes "users")])
        = strBytes "SELECT * FROM users ;" := by
  refine ⟨getQuery_buildRequest cmd req_id es hes, ?_⟩
  rw [getQuery_buildRequest cmd req_id _ (by decide)]
  decide

/-- C2 at an INSERT with a 300-byte table name (extended length form) followed
by a VALUES entry with empty data. -/
theorem C2_query_reconstruction_witness :
    (∀ e ∈ [(SQL_Tags.INSERT, List.replicate 300 120), (SQL_Tags.VALUES, [])],
        e.2.length ≤ 65535) ∧
      PacketRequest.getQuery
          (buildRequest 2 1 [(SQL_Tags.INSERT, List.replicate 300 120), (SQL_Tags.VALUES, [])])
        = strBytes "INSERT INTO " ++ List.replicate 300 120 ++ strBytes " VALUES  ;" :=
  ⟨by decide,
    (C2_query_reconstruction 2 1
      [(SQL_Tags.INSERT, List.replicate 300 120), (SQL_Tags.VALUES, [])] (by decide)).1.trans
      (by decide)⟩
/-- C3 as stated fails: the payload 01 05 61 holds no complete entry and one
truncated entry (tag SELECT, declared length 5, one data byte present), yet
`getQuery` returns "SELECT ;" for it and ";" for the empty payload. -/
theorem C3_truncated_entry_counterexample :
    PacketRequest.getQuery (PacketRequest.new 2 0 [1, 5, 97]) = strBytes "SELECT ;" ∧
      PacketRequest.getQuery (PacketRequest.new 2 0 []) = strBytes ";" ∧
      PacketRequest.getQuery (PacketRequest.new 2 0 [1, 5, 97]) ≠
        PacketRequest.getQuery (PacketRequest.new 2 0 []) := by
  decide

/-- C3, amended: for a payload made of complete tagged entries followed by one
truncated entry (tag byte `t`, a length prefix declaring `L` bytes in either
form, and fewer than `L` bytes after it), `getQuery` returns the text of the
complete entries, then the keyword of the truncated entry's tag and a space,
then ";": the truncated entry contributes its keyword and no data. The text
of the complete entries followed by ";" is what `getQuery` returns for the
payload holding only the complete entries. -/
theorem C3_truncated_entry_keeps_keyword (cmd req_id : Nat)
    (es : List (SQL_Tags × List Nat)) (t L : Nat) (lenBytes rest : List Nat)
    (hes : ∀ e ∈ es, e.2.length ≤ 65535)
    (hpre : (L < 255 ∧ lenBytes = [L]) ∨
      (∃ hi lo, hi < 256 ∧ lo < 256 ∧ L = hi * 256 + lo ∧ lenBytes = [0xFF, hi, lo]))
    (hrest : rest.length < L) :
    PacketRequest.getQuery
        (PacketRequest.new cmd req_id
          ((buildRequest cmd req_id es).payload ++ t :: (lenBytes ++ rest)))
      = queryText es ++ (tagStr t ++ strBytes " ") ++ strBytes ";" ∧
    PacketRequest.getQuery (buildRequest cmd req_id es) = queryText es ++ strBytes ";" := by
  refine ⟨?_, getQuery_buildRequest cmd req_id es hes⟩
  unfold PacketRequest.getQuery
  rw [buildRequest_payload]
  have hpl : (PacketRequest.new cmd req_id (wireBytes es ++ t :: (lenBytes ++ rest))).payload
      = wireBytes es ++ t :: (lenBytes ++ rest) := rfl
  rw [hpl]
  have h := getQueryLoop_entries es [] (t :: (lenBytes ++ rest)) [] hes
  simp only [List.nil_append, List.length_nil] at h
  rw [h]
  congr 1
  have e0 : (wireBytes es ++ t :: (lenBytes ++ rest)).getD (wireBytes es).length 0 = t :=
    getD_append_cons _ _ _
  have hlen : (wireBytes es ++ t :: (lenBytes ++ rest)).length =
      (wireBytes es).length + 1 + lenBytes.length + rest.length := by
    simp only [List.length_append, List.length_cons]; omega
  rcases hpre with ⟨hL, rfl⟩ | ⟨hi, lo, hhi, hlo, hLeq, rfl⟩
  · have e1 : (wireBytes es ++ t :: ([L] ++ rest)).getD ((wireBytes es).length + 1) 0 = L :=
      getD_append_cons_succ _ t _ 0
    simp only [List.length_cons, List.length_nil] at hlen
    rw [getQueryLoop_short_trunc _ _ _ (by omega) (by rw [e1]; omega) (by rw [e1]; omega), e0]
  · have e1 : (wireBytes es ++ t :: ([0xFF, hi, lo] ++ rest)).getD
        ((wireBytes es).length + 1) 0 = 0xFF := getD_append_cons_succ _ t _ 0
    have e2 : (wireBytes es ++ t :: ([0xFF, hi, lo] ++ rest)).getD
        ((wireBytes es).length + 1 + 1) 0 = hi := getD_append_cons_succ _ t _ 1
    have e3 : (wireBytes es ++ t :: ([0xFF, hi, lo] ++ rest)).getD
        ((wireBytes es).length + 1 + 1 + 1) 0 = lo := getD_append_cons_succ _ t _ 2
    have hdec : (hi <<< 8) ||| lo = L := by
      have hlo2 : lo < 2 ^ 8 := hlo
      rw [Nat.shiftLeft_eq, Nat.mul_comm, ← Nat.mul_add_lt_is_or hlo2 hi, hLeq]
      norm_num
      omega
    simp only [List.length_cons, List.length_nil] at hlen
    rw [getQueryLoop_ext_trunc _ _ _ (by omega) e1 (Or.inr (by rw [e2, e3, hdec]; omega)), e0]

/-- C3 (amended) at one complete entry (FROM, "t") followed by a WHERE entry
whose extended length prefix declares 258 bytes while two are present. -/
theorem C3_truncated_entry_keeps_keyword_witness :
    ((∀ e ∈ [(SQL_Tags.FROM, [116])], e.2.length ≤ 65535) ∧
      ((258 < 255 ∧ [0xFF, 1, 2] = [258]) ∨
        (∃ hi lo, hi < 256 ∧ lo < 256 ∧ 258 = hi * 256 + lo ∧ [0xFF, 1, 2] = [0xFF, hi, lo])) ∧
      [120, 121].length < 258) ∧
    PacketRequest.getQuery
        (PacketRequest.new 2 9
          ((buildRequest 2 9 [(SQL_Tags.FROM, [116])]).payload ++ 7 :: ([0xFF, 1, 2] ++ [120, 121])))
      = strBytes "FROM t WHERE ;" :=
  ⟨⟨by decide, Or.inr ⟨1, 2, by decide, by decide, by decide, rfl⟩, by decide⟩,
    (C3_truncated_entry_keeps_keyword 2 9 [(SQL_Tags.FROM, [116])] 7 258 [0xFF, 1, 2] [120, 121]
      (by decide) (Or.inr ⟨1, 2, by decide, by decide, by decide, rfl⟩) (by decide)).1.trans
      (by decide)⟩

/-- C8 fails on the code: the packet constructed with the one-byte payload "a"
has a `payload_size` field of zero, bytes 8..11 of its serialisation read as
zero, and an `addData` call leaves the field at zero too. -/
theorem C8_payload_size_stays_zero :
    (PacketBase.new 2 1 [97]).payload.length = 1 ∧
      (PacketBase.new 2 1 [97]).header.payload_size = 0 ∧
      read32 (PacketBase.new 2 1 [97]).toBinary 8 = 0 ∧
      (PacketRequest.addData (PacketRequest.new 2 1 []) [97]).payload.length = 2 ∧
      (PacketRequest.addData (PacketRequest.new 2 1 []) [97]).header.payload_size = 0 := by
  decide

/-- C9: for data `d` of length `L < 255`, the untagged `addData(d)` turns the
payload `q` into `q` followed by the byte `L` followed by `d`: it appends
`1 + L` bytes and leaves the first `len(q)` bytes unchanged. -/
theorem C9_addData_short_form (p : PacketBase) (d : List Nat) (h : d.length < 255) :
    (PacketRequest.addData p d).payload = p.payload ++ d.length :: d ∧
      (PacketRequest.addData p d).payload.length = p.payload.length + (1 + d.length) ∧
      (PacketRequest.addData p d).payload.take p.payload.length = p.payload := by
  have hp : (PacketRequest.addData p d).payload = p.payload ++ d.length :: d := by
    rw [addData_payload]
    unfold sizeBytes
    rw [if_pos h, Nat.mod_eq_of_lt (by omega)]
    rfl
  rw [hp]
  refine ⟨rfl, ?_, List.take_left _ _⟩
  simp only [List.length_append, List.length_cons]; omega

/-- C9 at the empty data appended to the payload 01 02. -/
theorem C9_addData_short_form_witness :
    ([] : List Nat).length < 255 ∧
      (PacketRequest.addData (PacketRequest.new 2 1 [1, 2]) []).payload = [1, 2, 0] :=
  ⟨by decide, (C9_addData_short_form (PacketRequest.new 2 1 [1, 2]) [] (by decide)).1⟩

/-- C10: for data `d` of length `L` with `255 ≤ L ≤ 65535`, the untagged
`addData(d)` turns the payload `q` into `q` followed by 0xFF, `L / 256`,
`L mod 256` and `d`: it appends `3 + L` bytes, and the two length bytes, read
back from the new payload high byte first, give `L`. -/
theorem C10_addData_extended_form (p : PacketBase) (d : List Nat)
    (h1 : 255 ≤ d.length) (h2 : d.length ≤ 65535) :
    (PacketRequest.addData p d).payload =
        p.payload ++ 0xFF :: (d.length / 256) :: (d.length % 256) :: d ∧
      (PacketRequest.addData p d).payload.length = p.payload.length + (3 + d.length) ∧
      (PacketRequest.addData p d).payload.getD (p.payload.length + 1) 0 * 256 +
        (PacketRequest.addData p d).payload.getD (p.payload.length + 2) 0 = d.length := by
  have hp : (PacketRequest.addData p d).payload =
      p.payload ++ 0xFF :: (d.length / 256) :: (d.length % 256) :: d := by
    rw [addData_payload]
    unfold sizeBytes
    rw [if_neg (by omega)]
    have ha : d.length &&& 0xFF = d.length % 256 := Nat.and_pow_two_sub_one_eq_mod d.length 8
    have hb : d.length >>> 8 = d.length / 256 := Nat.shiftRight_eq_div_pow d.length 8
    rw [ha, hb, Nat.mod_mod, Nat.mod_eq_of_lt (show d.length / 256 < 256 by omega)]
    rfl
  rw [hp]
  refine ⟨rfl, ?_, ?_⟩
  · simp only [List.length_append, List.length_cons]; omega
  · have e1 := getD_append_cons_succ p.payload 0xFF
      ((d.length / 256) :: (d.length % 256) :: d) 0
    have e2 := getD_append_cons_succ p.payload 0xFF
      ((d.length / 256) :: (d.length % 256) :: d) 1
    rw [e1, e2]
    simp only [List.getD_cons_zero, List.getD_cons_succ]
    omega

/-- C10 at 300 data bytes appended to the payload 01: the prefix is FF 01 2C. -/
theorem C10_addData_extended_form_witness :
    (255 ≤ (List.replicate 300 65).length ∧ (List.replicate 300 65).length ≤ 65535) ∧
      (PacketRequest.addData (PacketRequest.new 2 1 [1]) (List.replicate 300 65)).payload =
        [1, 0xFF, 1, 44] ++ List.replicate 300 65 :=
  ⟨⟨by decide, by decide⟩,
    (C10_addData_extended_form (PacketRequest.new 2 1 [1]) (List.replicate 300 65)
      (by decide) (by decide)).1.trans (by decide)⟩
/-! ## Theorems: tagged appends, unknown tags and the keyword table -/

/-- C11: for every tag `t`, data `d` and packet with payload `q`, the tagged
`addData(t, d)` yields the payload `q`, then the tag byte of `t`, then exactly
the bytes that the untagged `addData(d)` appends to `q` (length prefix, then
`d`), and it leaves the header unchanged. -/
theorem C11_tagged_append_shape (p : PacketBase) (t : SQL_Tags) (d : List Nat) :
    (PacketRequest.addDataTagged p t d).payload =
        p.payload ++ t.toByte :: (PacketRequest.addData p d).payload.drop p.payload.length ∧
      (PacketRequest.addData p d).payload.drop p.payload.length = sizeBytes d.length ++ d ∧
      (PacketRequest.addDataTagged p t d).header = p.header := by
  have h1 : (PacketRequest.addData p d).payload.drop p.payload.length =
      sizeBytes d.length ++ d := by
    rw [addData_payload, List.drop_left]
  refine ⟨?_, h1, rfl⟩
  rw [h1]
  unfold PacketRequest.addDataTagged
  rw [addData_payload]
  simp only [List.append_assoc, List.singleton_append]

/-- A subscript at an index up to the length is defined and is the unchecked read. -/
theorem subscript_ok (payload : List Nat) (i : Nat) (h : i ≤ payload.length) :
    subscript payload i = .ok (payload.getD i 0) := by
  unfold subscript
  rw [if_pos h]

/-- The call `substr` from a position up to the length does not throw. -/
theorem substrChecked_ok (payload : List Nat) (pos sz : Nat) (h : pos ≤ payload.length) :
    substrChecked payload pos sz = .ok (substr payload pos sz) := by
  unfold substrChecked substr
  rw [if_neg (by omega)]

/-- With more fuel than bytes left after the cursor, the checked loop neither
faults nor runs out of fuel, and returns what the unchecked loop returns. -/
theorem getQueryRun_eq (payload : List Nat) (fuel pos : Nat) (result : List Nat)
    (hfuel : payload.length - pos < fuel) :
    getQueryRun payload fuel pos result = .ok (getQueryLoop payload pos result) := by
  induction fuel generalizing pos result with
  | zero => omega
  | succ fuel ih =>
    rw [getQueryRun, getQueryLoop.eq_1]
    by_cases h : pos < payload.length
    · have s0 := subscript_ok payload pos (by omega)
      have s1 := subscript_ok payload (pos + 1) (by omega)
      rw [if_pos h, if_pos h, s0]
      simp only [bind, Except.bind, pure, Except.pure, s1]
      by_cases hsz : payload.getD (pos + 1) 0 = 0xFF
      · rw [if_pos hsz, if_pos hsz]
        by_cases hlen : pos + 1 + 1 + 2 > payload.length
        · rw [if_pos hlen, if_pos hlen]
        · have s2 := subscript_ok payload (pos + 1 + 1) (by omega)
          have s3 := subscript_ok payload (pos + 1 + 1 + 1) (by omega)
          rw [if_neg hlen, if_neg hlen]
          simp only [s2, s3]
          by_cases hfit : pos + 1 + 1 + 2 +
              ((payload.getD (pos + 1 + 1) 0 <<< 8) ||| payload.getD (pos + 1 + 1 + 1) 0)
                > payload.length
          · rw [if_pos hfit, if_pos hfit]
          · rw [if_neg hfit, if_neg hfit, substrChecked_ok _ _ _ (by omega)]
            simp only []
            exact ih _ _ (by omega)
      · rw [if_neg hsz, if_neg hsz]
        by_cases hfit : pos + 1 + 1 + payload.getD (pos + 1) 0 > payload.length
        · rw [if_pos hfit, if_pos hfit]
        · rw [if_neg hfit, if_neg hfit, substrChecked_ok _ _ _ (by omega)]
          simp only []
          exact ih _ _ (by omega)
    · rw [if_neg h, if_neg h]
      rfl

/-- C13: on every payload (empty, well-formed, truncated or malformed)
`getQuery` terminates and raises no error: run with every subscript and
`substr` call checked and with any iteration budget above the payload's
length, it returns a string, never a fault and never an exhausted budget; the
string is the unchecked `getQuery` result and ends with ";", and for the
empty payload it is exactly ";". -/
theorem C13_getQuery_total (p : PacketBase) (fuel : Nat) (hfuel : p.payload.length < fuel) :
    (∃ s, PacketRequest.getQueryChecked p fuel = .ok (s ++ strBytes ";")) ∧
      PacketRequest.getQueryChecked p fuel = .ok (PacketRequest.getQuery p) ∧
      (PacketRequest.getQuery p).getLast? = (strBytes ";").getLast? ∧
      PacketRequest.getQueryChecked { p with payload := [] } fuel = .ok (strBytes ";") ∧
      PacketRequest.getQuery { p with payload := [] } = strBytes ";" := by
  have hrun : PacketRequest.getQueryChecked p fuel = .ok (PacketRequest.getQuery p) := by
    unfold PacketRequest.getQueryChecked PacketRequest.getQuery
    rw [getQueryRun_eq p.payload fuel 0 [] (by omega)]
    rfl
  have hempty : getQueryLoop [] 0 [] = [] := getQueryLoop_done [] 0 [] (Nat.le_refl _)
  refine ⟨⟨getQueryLoop p.payload 0 [], hrun⟩, hrun, ?_, ?_, ?_⟩
  · unfold PacketRequest.getQuery
    rw [List.getLast?_append]
    rfl
  · unfold PacketRequest.getQueryChecked
    rw [getQueryRun_eq [] fuel 0 [] (by simp only [List.length_nil]; omega), hempty]
    rfl
  · unfold PacketRequest.getQuery
    rw [hempty]
    rfl

/-- C13 at a malformed payload: a complete FROM entry, then a WHERE tag whose
extended-length marker is followed by a single byte. -/
theorem C13_getQuery_total_witness :
    (PacketRequest.new 2 0 [5, 1, 116, 7, 0xFF, 0]).payload.length < 7 ∧
      PacketRequest.getQueryChecked (PacketRequest.new 2 0 [5, 1, 116, 7, 0xFF, 0]) 7 =
        .ok (strBytes "FROM t WHERE ;") :=
  ⟨by decide,
    (C13_getQuery_total (PacketRequest.new 2 0 [5, 1, 116, 7, 0xFF, 0]) 7 (by decide)).2.1.trans
      rfl⟩

/-- The keyword lookup falls back to "UNKNOWN_TAG" for every byte outside 1..14. -/
theorem tagStr_unknown (b : Nat) (hb : b = 0 ∨ 15 ≤ b) :
    tagStr b = strBytes "UNKNOWN_TAG" := by
  have hnone : tagNames.lookup b = none := by
    rw [List.lookup_eq_none_iff]
    intro q hq
    simp only [tagNames, List.mem_cons, List.mem_singleton, List.not_mem_nil, or_false] at hq
    rcases hq with h | h | h | h | h | h | h | h | h | h | h | h | h | h <;>
      · subst h
        simp only [SQL_Tags.toByte, bne_iff_ne, ne_eq]
        omega
  unfold tagStr
  rw [hnone]

/-- C14: for every tag byte `b` outside the 14 known values and every data `d`
of at most 65535 bytes, `getQuery` on the payload made of `b`, the length
prefix of `d` and `d` returns "UNKNOWN_TAG ", then `d`, then " ;". -/
theorem C14_unknown_tag_fallback (cmd req_id b : Nat) (d : List Nat)
    (hb : b = 0 ∨ (15 ≤ b ∧ b ≤ 255)) (hd : d.length ≤ 65535) :
    PacketRequest.getQuery (PacketRequest.addData (PacketRequest.new cmd req_id [b]) d) =
      strBytes "UNKNOWN_TAG " ++ d ++ strBytes " ;" := by
  unfold PacketRequest.getQuery
  rw [addData_payload]
  have hpl : (PacketRequest.new cmd req_id [b]).payload = [b] := rfl
  rw [hpl]
  have step := getQueryLoop_entry [] b d [] [] hd
  simp only [List.nil_append, List.append_nil, List.length_nil] at step
  have e : [b] ++ (sizeBytes d.length ++ d) = b :: (sizeBytes d.length ++ d) := rfl
  rw [e, step, getQueryLoop_done _ _ _ (Nat.le_refl _),
    tagStr_unknown b (by rcases hb with h | h; exact Or.inl h; exact Or.inr h.1)]
  simp only [List.append_assoc]
  rfl

/-- C14 at the tag byte 200 with the one-byte data "x". -/
theorem C14_unknown_tag_fallback_witness :
    ((200 = 0 ∨ (15 ≤ 200 ∧ 200 ≤ 255)) ∧ [120].length ≤ 65535) ∧
      PacketRequest.getQuery (PacketRequest.addData (PacketRequest.new 2 1 [200]) [120]) =
        strBytes "UNKNOWN_TAG x ;" :=
  ⟨⟨by decide, by decide⟩,
    (C14_unknown_tag_fallback 2 1 200 [120] (by decide) (by decide)).trans (by decide)⟩
/-- C15 as stated fails: the table maps GROUP_BY to "GROUP BY" (with a space),
not to its enumerator name "GROUP_BY". -/
theorem C15_group_by_counterexample :
    tagStr SQL_Tags.GROUP_BY.toByte = strBytes "GROUP BY" ∧
      tagStr SQL_Tags.GROUP_BY.toByte ≠ strBytes "GROUP_BY" := by
  decide

/-- C15, amended: the table maps INSERT to "INSERT INTO", DELETE to
"DELETE FROM", ORDER_BY to "ORDER BY", GROUP_BY to "GROUP BY", and each of the
other ten tags (SELECT, UPDATE, FROM, SET, WHERE, VALUES, JOIN, ON, DESC, AS)
to its own enumerator name. -/
theorem C15_tag_keyword_table :
    tagStr SQL_Tags.INSERT.toByte = strBytes "INSERT INTO" ∧
      tagStr SQL_Tags.DELETE.toByte = strBytes "DELETE FROM" ∧
      tagStr SQL_Tags.ORDER_BY.toByte = strBytes "ORDER BY" ∧
      tagStr SQL_Tags.GROUP_BY.toByte = strBytes "GROUP BY" ∧
      tagStr SQL_Tags.SELECT.toByte = strBytes "SELECT" ∧
      tagStr SQL_Tags.UPDATE.toByte = strBytes "UPDATE" ∧
      tagStr SQL_Tags.FROM.toByte = strBytes "FROM" ∧
      tagStr SQL_Tags.SET.toByte = strBytes "SET" ∧
      tagStr SQL_Tags.WHERE.toByte = strBytes "WHERE" ∧
      tagStr SQL_Tags.VALUES.toByte = strBytes "VALUES" ∧
      tagStr SQL_Tags.JOIN.toByte = strBytes "JOIN" ∧
      tagStr SQL_Tags.ON.toByte = strBytes "ON" ∧
      tagStr SQL_Tags.DESC.toByte = strBytes "DESC" ∧
      tagStr SQL_Tags.AS.toByte = strBytes "AS" := by
  decide

/-- C16 as stated fails: DELETE is 4 and FROM is 5, not 3 and 4; the tagged
append of DELETE with empty data to an empty payload writes the bytes 04 00. -/
theorem C16_delete_from_counterexample :
    SQL_Tags.DELETE.toByte ≠ 3 ∧ SQL_Tags.FROM.toByte ≠ 4 ∧
      SQL_Tags.UPDATE.toByte = 3 ∧
      (PacketRequest.addDataTagged (PacketRequest.new 2 0 []) SQL_Tags.DELETE []).payload
        = [4, 0] := by
  decide

/-- C16, amended: the 14 tags are numbered 1..14 in declaration order starting
at SELECT = 1; the tagged append writes that number as the tag byte, which is
4 for DELETE, 5 for FROM and 14 for GROUP_BY. -/
theorem C16_tag_numbering (p : PacketBase) (t : SQL_Tags) (d : List Nat) :
    [SQL_Tags.SELECT, SQL_Tags.INSERT, SQL_Tags.UPDATE, SQL_Tags.DELETE, SQL_Tags.FROM,
        SQL_Tags.SET, SQL_Tags.WHERE, SQL_Tags.VALUES, SQL_Tags.JOIN, SQL_Tags.ON,
        SQL_Tags.ORDER_BY, SQL_Tags.DESC, SQL_Tags.AS, SQL_Tags.GROUP_BY].map SQL_Tags.toByte
        = [1, 2, 3, 4, 5, 6, 7, 8, 9, 10, 11, 12, 13, 14] ∧
      (PacketRequest.addDataTagged p t d).payload.getD p.payload.length 0 = t.toByte ∧
      SQL_Tags.DELETE.toByte = 4 ∧ SQL_Tags.FROM.toByte = 5 ∧
      SQL_Tags.GROUP_BY.toByte = 14 := by
  refine ⟨by decide, ?_, by decide, by decide, by decide⟩
  unfold PacketRequest.addDataTagged
  rw [addData_payload]
  simp only [List.append_assoc, List.singleton_append]
  exact getD_append_cons _ _ _
/-! ## Theorems: lengths beyond 16 bits and the scalar decoder -/

/-- C12 as stated fails: `addData` has no failing path. For 65536 data bytes
it returns a packet whose payload is FF 00 00 followed by the data, so the
16-bit length field holds 0. -/
theorem C12_length_overflow_counterexample :
    (List.replicate 65536 97).length = 65536 ∧
      (PacketRequest.addData (PacketRequest.new 2 1 []) (List.replicate 65536 97)).payload =
        0xFF :: 0 :: 0 :: List.replicate 65536 97 := by
  constructor
  · exact List.length_replicate _ _
  · rw [addData_payload, List.length_replicate]
    rfl

/-- C12, amended: for every data byte string of length `L > 65535`, `addData`
raises no error: it returns the packet with the same header whose payload is
the old payload followed by the marker 0xFF, two length bytes and all `L`
data bytes (`3 + L` bytes appended); the two length bytes, read high byte
first, do not give `L`. -/
theorem C12_length_overflow_not_rejected (p : PacketBase) (d : List Nat)
    (h : 65535 < d.length) :
    (∃ hi lo, hi < 256 ∧ lo < 256 ∧ hi * 256 + lo ≠ d.length ∧
        (PacketRequest.addData p d).payload = p.payload ++ 0xFF :: hi :: lo :: d) ∧
      (PacketRequest.addData p d).payload.length = p.payload.length + (3 + d.length) ∧
      (PacketRequest.addData p d).header = p.header := by
  have hp : (PacketRequest.addData p d).payload =
      p.payload ++ 0xFF :: ((d.length >>> 8) % 256) :: ((d.length &&& 0xFF) % 256) :: d := by
    rw [addData_payload]
    unfold sizeBytes
    rw [if_neg (by omega)]
    rfl
  refine ⟨⟨(d.length >>> 8) % 256, (d.length &&& 0xFF) % 256, Nat.mod_lt _ (by decide),
    Nat.mod_lt _ (by decide), ?_, hp⟩, ?_, rfl⟩
  · have h1 : (d.length >>> 8) % 256 < 256 := Nat.mod_lt _ (by decide)
    have h2 : (d.length &&& 0xFF) % 256 < 256 := Nat.mod_lt _ (by decide)
    omega
  · rw [hp]
    simp only [List.length_append, List.length_cons]
    omega

/-- C12 (amended) at 65536 data bytes appended to an empty payload. -/
theorem C12_length_overflow_not_rejected_witness :
    65535 < (List.replicate 65536 97).length ∧
      (PacketRequest.addData (PacketRequest.new 2 1 []) (List.replicate 65536 97)).payload.length
        = (PacketRequest.new 2 1 []).payload.length + (3 + (List.replicate 65536 97).length) :=
  ⟨by rw [List.length_replicate]; decide,
    (C12_length_overflow_not_rejected (PacketRequest.new 2 1 []) (List.replicate 65536 97)
      (by rw [List.length_replicate]; decide)).2.1⟩

/-- C17 as stated fails: `decodeInt` accepts a five-byte buffer and decodes its
first four bytes. -/
theorem C17_longer_buffer_counterexample :
    [1, 0, 0, 0, 9].length ≠ 4 ∧ Serializer.decodeInt [1, 0, 0, 0, 9] = .ok 1 :=
  ⟨by decide, rfl⟩

/-- C17, amended: `decodeInt` fails with "Invalid int32 size" exactly for the
buffers shorter than 4 bytes; every buffer of at least 4 bytes, of length 4 or
longer, is decoded from its first four bytes. -/
theorem C17_decodeInt_size_guard (data : List Nat) :
    (data.length < 4 ↔ Serializer.decodeInt data = .error "Invalid int32 size") ∧
      (4 ≤ data.length ↔
        Serializer.decodeInt data = .ok (toInt32 (read32 (data.take 4) 0))) := by
  unfold Serializer.decodeInt sizeofInt32
  by_cases h : data.length < 4
  · simp only [h, if_true, true_iff]
    refine ⟨trivial, ?_⟩
    constructor
    · intro h4; omega
    · intro he; cases he
  · simp only [h, if_false]
    have h4 : 4 ≤ data.length := by omega
    refine ⟨⟨fun hh => hh.elim, fun he => by cases he⟩, ?_⟩
    simp only [h4, true_iff]
    match data, h4 with
    | a :: b :: c :: e :: rest, _ => rfl
/-! ## Theorems: indices read by the parser -/

/-- Every index the loop reads is at most the payload's length: the loop never
reads beyond the terminating character of the string. -/
theorem getQueryReads_le (payload : List Nat) (pos i : Nat)
    (hi : i ∈ getQueryReads payload pos) : i ≤ payload.length := by
  induction pos using getQueryReads.induct payload with
  | case1 pos h pos1 sz pos2 hsz hbrk =>
    rw [getQueryReads.eq_1] at hi
    simp only [if_pos h, if_pos hsz, if_pos hbrk, List.mem_cons, List.mem_singleton,
      List.not_mem_nil, or_false] at hi
    omega
  | case2 pos h pos1 sz pos2 hsz hlen sz2 pos3 hbrk =>
    rw [getQueryReads.eq_1] at hi
    simp only [if_pos h, if_pos hsz, if_neg hlen, if_pos hbrk, List.mem_cons,
      List.mem_singleton, List.not_mem_nil, or_false] at hi
    omega
  | case3 pos h pos1 sz pos2 hsz hlen sz2 pos3 hfit ih =>
    have hfit2 : ¬ pos + 1 + 1 + 2 +
        ((payload.getD (pos + 1 + 1) 0 <<< 8) ||| payload.getD (pos + 1 + 1 + 1) 0)
          > payload.length := hfit
    rw [getQueryReads.eq_1] at hi
    simp only [if_pos h, if_pos hsz, if_neg hlen, if_neg hfit, List.mem_append, List.mem_cons,
      List.mem_singleton, List.not_mem_nil, or_false, List.mem_range'_1] at hi
    rcases hi with (hi | hi) | hi
    · omega
    · omega
    · exact ih hi
  | case4 pos h pos1 sz pos2 hsz hbrk =>
    rw [getQueryReads.eq_1] at hi
    simp only [if_pos h, if_neg hsz, if_pos hbrk, List.mem_cons, List.mem_singleton,
      List.not_mem_nil, or_false] at hi
    omega
  | case5 pos h pos1 sz pos2 hsz hfit ih =>
    have hfit2 : ¬ pos + 1 + 1 + payload.getD (pos + 1) 0 > payload.length := hfit
    rw [getQueryReads.eq_1] at hi
    simp only [if_pos h, if_neg hsz, if_neg hfit, List.mem_append, List.mem_cons,
      List.mem_singleton, List.not_mem_nil, or_false, List.mem_range'_1] at hi
    rcases hi with (hi | hi) | hi
    · omega
    · omega
    · exact ih hi
  | case6 pos h =>
    rw [getQueryReads.eq_1, if_neg h] at hi
    cases hi
/-- C18 fails on the code: for the one-byte payload 01 (a SELECT tag with no
length byte after it) the loop reads index 0 and then index 1, which is the
payload's length and not below it; the result is "SELECT ;". -/
theorem C18_read_at_payload_end :
    getQueryReads [1] 0 = [0, 1] ∧ ¬ (1 < [1].length) ∧
      PacketRequest.getQuery (PacketRequest.new 2 0 [1]) = strBytes "SELECT ;" := by
  decide

/-! ## Theorems: injectivity of the builder -/

/-- The tag numbering is injective. -/
theorem toByte_injective (t1 t2 : SQL_Tags) (h : t1.toByte = t2.toByte) : t1 = t2 := by
  cases t1 <;> cases t2 <;> first | rfl | (exact absurd h (by decide))

/-- Two length prefixes of lengths that fit in 16 bits, each followed by
arbitrary bytes, agree only if the lengths agree. -/
theorem sizeBytes_append_inj (n1 n2 : Nat) (r1 r2 : List Nat)
    (h1 : n1 ≤ 65535) (h2 : n2 ≤ 65535)
    (h : sizeBytes n1 ++ r1 = sizeBytes n2 ++ r2) : n1 = n2 := by
  have ha : ∀ n : Nat, n &&& 0xFF = n % 256 := fun n => Nat.and_pow_two_sub_one_eq_mod n 8
  have hb : ∀ n : Nat, n >>> 8 = n / 256 := fun n => Nat.shiftRight_eq_div_pow n 8
  unfold sizeBytes at h
  by_cases c1 : n1 < 0xFF <;> by_cases c2 : n2 < 0xFF
  · rw [if_pos c1, if_pos c2] at h
    simp only [List.singleton_append, List.cons.injEq] at h
    omega
  · rw [if_pos c1, if_neg c2] at h
    simp only [List.singleton_append, List.cons_append, List.cons.injEq] at h
    omega
  · rw [if_neg c1, if_pos c2] at h
    simp only [List.singleton_append, List.cons_append, List.cons.injEq] at h
    omega
  · rw [if_neg c1, if_neg c2, ha, ha, hb, hb] at h
    simp only [List.cons_append, List.cons.injEq] at h
    omega

/-- The wire form of entry lists is injective when every data length fits in
16 bits. -/
theorem wireBytes_injective (es1 es2 : List (SQL_Tags × List Nat))
    (h1 : ∀ e ∈ es1, e.2.length ≤ 65535) (h2 : ∀ e ∈ es2, e.2.length ≤ 65535)
    (h : wireBytes es1 = wireBytes es2) : es1 = es2 := by
  induction es1 generalizing es2 with
  | nil =>
    cases es2 with
    | nil => rfl
    | cons e2 es2 =>
      obtain ⟨t2, d2⟩ := e2
      simp only [wireBytes] at h
      cases h
  | cons e1 es1 ih =>
    obtain ⟨t1, d1⟩ := e1
    cases es2 with
    | nil =>
      simp only [wireBytes] at h
      cases h
    | cons e2 es2 =>
      obtain ⟨t2, d2⟩ := e2
      simp only [wireBytes, List.cons.injEq] at h
      obtain ⟨ht, hrest⟩ := h
      have hd1 : d1.length ≤ 65535 := h1 (t1, d1) (List.mem_cons_self _ _)
      have hd2 : d2.length ≤ 65535 := h2 (t2, d2) (List.mem_cons_self _ _)
      have hlen : d1.length = d2.length := sizeBytes_append_inj _ _ _ _ hd1 hd2 hrest
      rw [hlen] at hrest
      have hdw := List.append_cancel_left hrest
      obtain ⟨hd, hw⟩ := List.append_inj hdw hlen
      have htt : t1 = t2 := toByte_injective t1 t2 ht
      have hes : es1 = es2 :=
        ih es2 (fun e he => h1 e (List.mem_cons_of_mem _ he))
          (fun e he => h2 e (List.mem_cons_of_mem _ he)) hw
      rw [htt, hd, hes]

/-- C19: the builder is injective: if two lists of tagged entries, all with
data of at most 65535 bytes, yield the same payload when appended in order to
an empty payload, then the two lists are equal. -/
theorem C19_builder_injective (cmd1 req1 cmd2 req2 : Nat)
    (es1 es2 : List (SQL_Tags × List Nat))
    (h1 : ∀ e ∈ es1, e.2.length ≤ 65535) (h2 : ∀ e ∈ es2, e.2.length ≤ 65535)
    (h : (buildRequest cmd1 req1 es1).payload = (buildRequest cmd2 req2 es2).payload) :
    es1 = es2 := by
  rw [buildRequest_payload, buildRequest_payload] at h
  exact wireBytes_injective es1 es2 h1 h2 h
/-- C19 at two entries, one of them with empty data, built under different
command codes and request ids. -/
theorem C19_builder_injective_witness :
    ((∀ e ∈ [(SQL_Tags.UPDATE, [116]), (SQL_Tags.SET, [])], e.2.length ≤ 65535) ∧
      (∀ e ∈ [(SQL_Tags.UPDATE, [116]), (SQL_Tags.SET, [])], e.2.length ≤ 65535) ∧
      (buildRequest 2 1 [(SQL_Tags.UPDATE, [116]), (SQL_Tags.SET, [])]).payload =
        (buildRequest 3 9 [(SQL_Tags.UPDATE, [116]), (SQL_Tags.SET, [])]).payload) ∧
      [(SQL_Tags.UPDATE, [116]), (SQL_Tags.SET, ([] : List Nat))] =
        [(SQL_Tags.UPDATE, [116]), (SQL_Tags.SET, [])] :=
  ⟨⟨by decide, by decide, by decide⟩,
    C19_builder_injective 2 1 3 9 [(SQL_Tags.UPDATE, [116]), (SQL_Tags.SET, [])]
      [(SQL_Tags.UPDATE, [116]), (SQL_Tags.SET, [])] (by decide) (by decide) (by decide)⟩

/-! ## Theorems: re-serialising a decoded packet -/

/-- The packet decoded from an accepted buffer of bytes, and the shape of the
buffer: the magic bytes are CD AB. -/
theorem fromBinary_ok_shape (b : List Nat) (q : PacketBase)
    (hq : PacketBase.fromBinary b = .ok q) :
    ∃ b0 b1 b2 b3 b4 b5 b6 b7 b8 b9 b10 b11 p,
      b = b0 :: b1 :: b2 :: b3 :: b4 :: b5 :: b6 :: b7 :: b8 :: b9 :: b10 :: b11 :: p ∧
      b0 + 256 * b1 = 0xABCD ∧
      q = PacketBase.new b3 (b4 + 256 * b5 + 65536 * b6 + 16777216 * b7) p := by
  by_cases hl : b.length < 12
  · simp only [PacketBase.fromBinary, sizeofPacketHeader, hl, if_true] at hq
    cases hq
  · obtain ⟨b0, b1, b2, b3, b4, b5, b6, b7, b8, b9, b10, b11, p, rfl⟩ :=
      exists_header_bytes b (by omega)
    refine ⟨b0, b1, b2, b3, b4, b5, b6, b7, b8, b9, b10, b11, p, rfl, ?_⟩
    rw [fromBinary_cons] at hq
    by_cases hm : b0 + 256 * b1 ≠ 0xABCD
    · rw [if_pos hm] at hq
      cases hq
    · rw [if_neg hm] at hq
      refine ⟨by omega, ?_⟩
      cases hq
      rfl
/-- C20: for every buffer `b` of bytes accepted by `fromBinary`, the decoded
packet serialises to `b` with byte 2 replaced by 1 and bytes 8..11 replaced by
zero; hence it serialises to `b` itself exactly when byte 2 of `b` is 1 and
bytes 8..11 of `b` are zero. -/
theorem C20_reserialise_decoded (b : List Nat) (q : PacketBase)
    (hb : ∀ x ∈ b, x < 256) (hq : PacketBase.fromBinary b = .ok q) :
    q.toBinary = b.take 2 ++ 1 :: ((b.drop 3).take 5 ++ 0 :: 0 :: 0 :: 0 :: b.drop 12) ∧
      (q.toBinary = b ↔
        (b.getD 2 0 = 1 ∧ b.getD 8 0 = 0 ∧ b.getD 9 0 = 0 ∧ b.getD 10 0 = 0 ∧
          b.getD 11 0 = 0)) := by
  obtain ⟨b0, b1, b2, b3, b4, b5, b6, b7, b8, b9, b10, b11, p, rfl, hm, rfl⟩ :=
    fromBinary_ok_shape b q hq
  have h0 : b0 < 256 := hb b0 (by simp only [List.mem_cons, true_or])
  have h1 : b1 < 256 := hb b1 (by simp only [List.mem_cons, true_or, or_true])
  have h3 : b3 < 256 := hb b3 (by simp only [List.mem_cons, true_or, or_true])
  have h4 : b4 < 256 := hb b4 (by simp only [List.mem_cons, true_or, or_true])
  have h5 : b5 < 256 := hb b5 (by simp only [List.mem_cons, true_or, or_true])
  have h6 : b6 < 256 := hb b6 (by simp only [List.mem_cons, true_or, or_true])
  have h7 : b7 < 256 := hb b7 (by simp only [List.mem_cons, true_or, or_true])
  have hm2 : b0 + 256 * b1 = 43981 := hm
  have e0 : b0 = 0xCD := by omega
  have e1 : b1 = 0xAB := by omega
  have e3 : b3 % 256 % 256 = b3 := by omega
  have e4 : (b4 + 256 * b5 + 65536 * b6 + 16777216 * b7) % 256 = b4 := by omega
  have e5 : (b4 + 256 * b5 + 65536 * b6 + 16777216 * b7) / 256 % 256 = b5 := by omega
  have e6 : (b4 + 256 * b5 + 65536 * b6 + 16777216 * b7) / 65536 % 256 = b6 := by omega
  have e7 : (b4 + 256 * b5 + 65536 * b6 + 16777216 * b7) / 16777216 % 256 = b7 := by omega
  rw [toBinary_new, e3, e4, e5, e6, e7]
  subst e0 e1
  constructor
  · rfl
  · simp only [List.cons.injEq, true_and, and_true, List.getD_cons_zero, List.getD_cons_succ]
    constructor
    · rintro ⟨a2, a8, a9, a10, a11⟩
      exact ⟨a2.symm, a8.symm, a9.symm, a10.symm, a11.symm⟩
    · rintro ⟨a2, a8, a9, a10, a11⟩
      exact ⟨a2.symm, a8.symm, a9.symm, a10.symm, a11.symm⟩

/-- C20 at a buffer with version byte 7 and size field 5 over a one-byte
payload: the decoded packet serialises with version 1 and size field 0. -/
theorem C20_reserialise_decoded_witness :
    ((∀ x ∈ [0xCD, 0xAB, 7, 2, 9, 0, 0, 0, 5, 0, 0, 0, 65], x < 256) ∧
      PacketBase.fromBinary [0xCD, 0xAB, 7, 2, 9, 0, 0, 0, 5, 0, 0, 0, 65] =
        .ok (PacketBase.new 2 9 [65])) ∧
      (PacketBase.new 2 9 [65]).toBinary = [0xCD, 0xAB, 1, 2, 9, 0, 0, 0, 0, 0, 0, 0, 65] :=
  ⟨⟨by decide, rfl⟩,
    (C20_reserialise_decoded [0xCD, 0xAB, 7, 2, 9, 0, 0, 0, 5, 0, 0, 0, 65]
      (PacketBase.new 2 9 [65]) (by decide) rfl).1⟩
end BinaryProtocol
